import Mathlib

/-!
Shallow embedding of the AlgorithmicTrading repository core
(signals/ewma_signal.py, position_sizing/vol_target_sizing.py,
backtesting/rolling_window_backtest.py, portfolio_u/portfolio_optimizer.py).

Numeric model: pandas/numpy float series are modelled over exact rationals,
with the IEEE special values NaN and ±infinity represented explicitly by the
`FVal` type.  Finite float arithmetic is replaced by exact rational
arithmetic; NaN/inf propagation follows IEEE-754 as numpy implements it.
pandas NaN is the missing-data marker, so `FVal.nan` represents a missing
entry of a series.  Square roots (which produce irrational values) are
confined to a second, real-valued domain `RVal` used by the position-sizing
and metrics modules.
-/

/-- A pandas/numpy float value over exact rationals: a finite rational,
positive or negative infinity, or NaN (missing). -/
inductive FVal where
  | num (q : ℚ)
  | pinf
  | ninf
  | nan
deriving DecidableEq

/-- IEEE addition, as numpy implements it, over the `FVal` domain. -/
def FVal.add : FVal → FVal → FVal
  | .nan, _ => .nan
  | _, .nan => .nan
  | .num a, .num b => .num (a + b)
  | .pinf, .ninf => .nan
  | .ninf, .pinf => .nan
  | .pinf, _ => .pinf
  | _, .pinf => .pinf
  | .ninf, _ => .ninf
  | _, .ninf => .ninf

/-- IEEE negation over the `FVal` domain. -/
def FVal.neg : FVal → FVal
  | .num a => .num (-a)
  | .pinf => .ninf
  | .ninf => .pinf
  | .nan => .nan

/-- IEEE subtraction over the `FVal` domain. -/
def FVal.sub (a b : FVal) : FVal := a.add b.neg

/-- IEEE multiplication over the `FVal` domain (0 * inf = NaN). -/
def FVal.mul : FVal → FVal → FVal
  | .nan, _ => .nan
  | _, .nan => .nan
  | .num a, .num b => .num (a * b)
  | .num a, .pinf => if 0 < a then .pinf else if a < 0 then .ninf else .nan
  | .pinf, .num a => if 0 < a then .pinf else if a < 0 then .ninf else .nan
  | .num a, .ninf => if 0 < a then .ninf else if a < 0 then .pinf else .nan
  | .ninf, .num a => if 0 < a then .ninf else if a < 0 then .pinf else .nan
  | .pinf, .pinf => .pinf
  | .pinf, .ninf => .ninf
  | .ninf, .pinf => .ninf
  | .ninf, .ninf => .pinf

/-- IEEE division over the `FVal` domain.  Division of a nonzero finite
value by zero gives a signed infinity (numpy semantics: `x / 0.0` warns and
returns `inf`); `0 / 0` gives NaN.  Rationals have a single zero, which is
IEEE `+0`. -/
def FVal.div : FVal → FVal → FVal
  | .nan, _ => .nan
  | _, .nan => .nan
  | .num a, .num b =>
      if b = 0 then (if a = 0 then .nan else if 0 < a then .pinf else .ninf)
      else .num (a / b)
  | .num _, .pinf => .num 0
  | .num _, .ninf => .num 0
  | .pinf, .num b => if b < 0 then .ninf else .pinf
  | .ninf, .num b => if b < 0 then .pinf else .ninf
  | .pinf, .pinf => .nan
  | .pinf, .ninf => .nan
  | .ninf, .pinf => .nan
  | .ninf, .ninf => .nan

/-- IEEE absolute value over the `FVal` domain. -/
def FVal.abs : FVal → FVal
  | .num a => .num |a|
  | .pinf => .pinf
  | .ninf => .pinf
  | .nan => .nan

/-- pandas `Series.clip(lo, hi)`: finite values are clamped into `[lo, hi]`,
infinities clamp to the corresponding bound, NaN stays NaN. -/
def FVal.clip (v : FVal) (lo hi : ℚ) : FVal :=
  match v with
  | .num q => .num (if q < lo then lo else if hi < q then hi else q)
  | .pinf => .num hi
  | .ninf => .num lo
  | .nan => .nan

/-- `v > 0` as pandas evaluates it (NaN compares false). -/
def FVal.isPos : FVal → Bool
  | .num q => decide (0 < q)
  | .pinf => true
  | _ => false

/-- `v < 0` as pandas evaluates it (NaN compares false). -/
def FVal.isNeg : FVal → Bool
  | .num q => decide (q < 0)
  | .ninf => true
  | _ => false

/-- pandas `max` with skip-NaN semantics (`expanding().max()` building block). -/
def FVal.fmax : FVal → FVal → FVal
  | .nan, b => b
  | a, .nan => a
  | .pinf, _ => .pinf
  | _, .pinf => .pinf
  | .ninf, b => b
  | a, .ninf => a
  | .num a, .num b => .num (if a < b then b else a)

/-- pandas `min` with skip-NaN semantics. -/
def FVal.fmin : FVal → FVal → FVal
  | .nan, b => b
  | a, .nan => a
  | .ninf, _ => .ninf
  | _, .ninf => .ninf
  | .pinf, b => b
  | a, .pinf => a
  | .num a, .num b => .num (if b < a then b else a)

/-- pandas `Series.sum()` (skipna=True, min_count=0): NaN entries are
dropped, an all-NaN or empty series sums to 0. -/
def fsum (l : List FVal) : FVal :=
  (l.filter (fun v => v ≠ FVal.nan)).foldl FVal.add (FVal.num 0)

/-- pandas `Series.mean()` (skipna=True): the mean of the non-NaN entries;
NaN when no entry is defined. -/
def fmean (l : List FVal) : FVal :=
  let vals := l.filter (fun v => v ≠ FVal.nan)
  if vals.length = 0 then FVal.nan
  else (vals.foldl FVal.add (FVal.num 0)).div (FVal.num vals.length)

/-- pandas `Series.ewm(span, adjust=False).mean()` on a NaN-free series:
`y₀ = x₀`, `yₜ = (1−α)·yₜ₋₁ + α·xₜ` with `α = 2/(span+1)`. -/
def ewmaList (span : ℕ) (xs : List ℚ) : List ℚ :=
  let α : ℚ := 2 / (span + 1)
  match xs with
  | [] => []
  | x :: rest => List.scanl (fun prev cur => (1 - α) * prev + α * cur) x rest

/-- pandas `Series.pct_change()`: `NaN` at the first position, then
`cur/prev − 1` elementwise. -/
def pctChange : List ℚ → List FVal
  | [] => []
  | p :: rest =>
      FVal.nan ::
        List.zipWith
          (fun prev cur => ((FVal.num cur).div (FVal.num prev)).sub (FVal.num 1))
          (p :: rest) rest

/-! ## EWMASignal (src/signals/ewma_signal.py) -/

/-- `raw_signal = (fast_ewma - slow_ewma) / prices`, elementwise
(`EWMASignal.get_forecast`, steps 1-2). -/
def rawSignal (fast slow : ℕ) (prices : List ℚ) : List FVal :=
  List.zipWith
    (fun fs p => (FVal.num (fs.1 - fs.2)).div (FVal.num p))
    ((ewmaList fast prices).zip (ewmaList slow prices)) prices

/-- `scaling_data = train_prices if train_prices is not None else prices`. -/
def scalingData (prices : List ℚ) (train_prices : Option (List ℚ)) : List ℚ :=
  match train_prices with
  | some t => t
  | none => prices

/-- `scaling_factor = 10 / scaling_raw.abs().mean()` computed over the
scaling data (`EWMASignal.get_forecast`, step 3). -/
def scalingFactor (fast slow : ℕ) (data : List ℚ) : FVal :=
  (FVal.num 10).div (fmean ((rawSignal fast slow data).map FVal.abs))

/-- `EWMASignal.get_forecast`: raw signal on `prices`, scaled by the factor
computed from the scaling data, clipped to [-20, 20]. -/
def get_forecast (fast slow : ℕ) (prices : List ℚ)
    (train_prices : Option (List ℚ)) : List FVal :=
  let sf := scalingFactor fast slow (scalingData prices train_prices)
  (rawSignal fast slow prices).map (fun r => (r.mul sf).clip (-20) 20)

/-! ## RollingWindowBacktest (src/backtesting/rolling_window_backtest.py) -/

/-- The walk-forward cursor values of `RollingWindowBacktest.run`:
Python `range(train_window, len(prices) - test_window, test_window)`.
The end bound of `range` is exclusive.  A zero step would raise `ValueError`
in Python; we return the empty list in that (never-exercised) case. -/
def walkCursors (n train test : ℕ) : List ℕ :=
  if test = 0 then []
  else (List.range ((n - test - train + test - 1) / test)).map (fun j => train + j * test)

/-- One row of the aggregated walk-forward result: timestamp plus the
net-return, forecast, position and cost values stored at that timestamp. -/
structure WindowRow where
  t : ℕ
  ret : FVal
  fc : FVal
  pos : FVal
  cost : FVal

/-- pandas `Series.shift(1)`: drop the last value, prepend NaN. -/
def shift1 (l : List FVal) : List FVal :=
  match l with
  | [] => []
  | _ => FVal.nan :: l.dropLast

/-- pandas `(1 + returns).cumprod()` (skipna=True): running product of the
defined entries; NaN entries output NaN and are excluded from the product. -/
def cumprod1pGo : Option FVal → List FVal → List FVal
  | _, [] => []
  | acc, r :: rs =>
      let x := (FVal.num 1).add r
      if x = FVal.nan then FVal.nan :: cumprod1pGo acc rs
      else
        let p := match acc with
          | none => x
          | some a => a.mul x
        p :: cumprod1pGo (some p) rs

/-- `(1 + returns).cumprod()`. -/
def cumprod1p (rs : List FVal) : List FVal := cumprod1pGo none rs

/-- The body of one iteration of the walk-forward loop in
`RollingWindowBacktest.run`, at cursor `i`.  Timestamps are the positional
indices of the price series.  `.loc[valid_idx]` lookups on the test-window
series become positional lookups at `t - i`. -/
def runWindow (signal : List ℚ → Option (List ℚ) → List FVal)
    (sizing : List FVal → List ℚ → ℚ → List FVal)
    (train_window test_window : ℕ) (prices : List ℚ)
    (capital transaction_cost : ℚ) (i : ℕ) : List WindowRow :=
  let train_prices := (prices.drop (i - train_window)).take train_window
  let test_prices := (prices.drop i).take test_window
  let forecast := signal test_prices (some train_prices)
  let positions := sizing forecast test_prices capital
  let test_returns := pctChange test_prices
  let strategy_returns := List.zipWith FVal.mul (shift1 positions) test_returns
  let position_changes := (List.zipWith FVal.sub positions (shift1 positions)).map FVal.abs
  let costs := position_changes.map (fun c => c.mul (FVal.num transaction_cost))
  let net_returns := List.zipWith FVal.sub strategy_returns costs
  let idx := (List.range test_prices.length).map (fun j => i + j)
  ((idx.zip net_returns).filter (fun p => p.2 ≠ FVal.nan)).map
    (fun p =>
      { t := p.1, ret := p.2, fc := forecast.getD (p.1 - i) FVal.nan,
        pos := positions.getD (p.1 - i) FVal.nan,
        cost := costs.getD (p.1 - i) FVal.nan })

/-- The result dictionary of `RollingWindowBacktest.run`: five series sharing
one timestamp index. -/
structure BacktestResults where
  timestamps : List ℕ
  returns : List FVal
  forecasts : List FVal
  positions : List FVal
  costs : List FVal
  cumulative_returns : List FVal
deriving DecidableEq

/-- The aggregated rows of the walk-forward loop: the per-window row lists,
concatenated in cursor order. -/
def runRows (signal : List ℚ → Option (List ℚ) → List FVal)
    (sizing : List FVal → List ℚ → ℚ → List FVal)
    (train_window test_window : ℕ) (prices : List ℚ)
    (capital transaction_cost : ℚ) : List WindowRow :=
  ((walkCursors prices.length train_window test_window).map
    (runWindow signal sizing train_window test_window prices capital
      transaction_cost)).flatten

/-- `RollingWindowBacktest.run`, generic over the signal and sizing
components (the class stores them as `self.signal` / `self.sizing`). -/
def run (signal : List ℚ → Option (List ℚ) → List FVal)
    (sizing : List FVal → List ℚ → ℚ → List FVal)
    (train_window test_window : ℕ) (prices : List ℚ)
    (capital transaction_cost : ℚ) : BacktestResults :=
  let rows := runRows signal sizing train_window test_window prices capital
    transaction_cost
  { timestamps := rows.map (fun r => r.t)
    returns := rows.map (fun r => r.ret)
    forecasts := rows.map (fun r => r.fc)
    positions := rows.map (fun r => r.pos)
    costs := rows.map (fun r => r.cost)
    cumulative_returns := cumprod1p (rows.map (fun r => r.ret)) }

/-- pandas sample variance `Series.var()` (ddof=1, skipna=True):
`Σ(x − mean)² / (k − 1)` over the `k` non-NaN entries, NaN when `k ≤ 1`. -/
def sampleVarF (xs : List FVal) : FVal :=
  let d := xs.filter (fun v => v ≠ FVal.nan)
  if d.length ≤ 1 then FVal.nan
  else
    let m := (d.foldl FVal.add (FVal.num 0)).div (FVal.num d.length)
    ((d.map (fun x => (x.sub m).mul (x.sub m))).foldl FVal.add
      (FVal.num 0)).div (FVal.num (d.length - 1))

/-- pandas `expanding().max()`: running maximum with skip-NaN semantics. -/
def runningMaxGo : FVal → List FVal → List FVal
  | _, [] => []
  | acc, x :: xs =>
      let acc' := acc.fmax x
      acc' :: runningMaxGo acc' xs

/-- `cumulative.expanding().max()`. -/
def runningMax (xs : List FVal) : List FVal := runningMaxGo FVal.nan xs

/-- pandas `Series.min()` (skipna=True), NaN on an empty/all-NaN series. -/
def fminList (xs : List FVal) : FVal := xs.foldl FVal.fmin FVal.nan

/-! ## pandas EWM variance (pandas `_libs.window.aggregations.ewmcov` with
`x = y`, `adjust=False`, `ignore_na=False`, `bias=False`, `min_periods=1`),
the engine behind `returns.ewm(span=lookback, adjust=False).std()`. -/

/-- Running state of the pandas EWM covariance recursion: current mean and
(biased) covariance, the weight accumulators, and the observation count. -/
structure EwmState where
  mean : FVal
  cov : FVal
  sw : ℚ
  sw2 : ℚ
  ow : ℚ
  nobs : ℕ
deriving DecidableEq

/-- One step of the pandas EWM variance recursion (`adjust=False`,
`ignore_na=False`), with `new_wt = α` and decay factor `1 − α`.  Returns the
updated state and the debiased variance output for this position (NaN when
the debiasing denominator is not positive). -/
def ewmVarStep (α : ℚ) (st : EwmState) (cur : FVal) : EwmState × FVal :=
  let owf := 1 - α
  let nobs' := if cur = FVal.nan then st.nobs else st.nobs + 1
  let st' : EwmState :=
    if st.mean ≠ FVal.nan then
      let sw := st.sw * owf
      let sw2 := st.sw2 * (owf * owf)
      let ow := st.ow * owf
      if cur ≠ FVal.nan then
        let oldMean := st.mean
        let mean' :=
          if st.mean ≠ cur then
            (((FVal.num ow).mul oldMean).add ((FVal.num α).mul cur)).div
              (FVal.num (ow + α))
          else st.mean
        let cov' :=
          (((FVal.num ow).mul
              (st.cov.add ((oldMean.sub mean').mul (oldMean.sub mean')))).add
            ((FVal.num α).mul ((cur.sub mean').mul (cur.sub mean')))).div
            (FVal.num (ow + α))
        -- sum_wt += new_wt etc., then the adjust=False renormalization
        -- sum_wt /= old_wt; sum_wt2 /= old_wt²; old_wt = 1
        { mean := mean', cov := cov', sw := (sw + α) / (ow + α),
          sw2 := (sw2 + α * α) / ((ow + α) * (ow + α)), ow := 1, nobs := nobs' }
      else
        { st with sw := sw, sw2 := sw2, ow := ow, nobs := nobs' }
    else
      if cur ≠ FVal.nan then { st with mean := cur, nobs := nobs' }
      else { st with nobs := nobs' }
  let out :=
    if 1 ≤ st'.nobs then
      let numr := st'.sw * st'.sw
      let den := numr - st'.sw2
      if 0 < den then (FVal.num (numr / den)).mul st'.cov else FVal.nan
    else FVal.nan
  (st', out)

/-- Tail of the EWM variance recursion. -/
def ewmVarGo (α : ℚ) : EwmState → List FVal → List FVal
  | _, [] => []
  | st, c :: cs =>
      let r := ewmVarStep α st c
      r.2 :: ewmVarGo α r.1 cs

/-- `series.ewm(span, adjust=False).var()` (debiased).  The first output is
always NaN (with one observation the debiasing denominator is zero). -/
def ewmVar (span : ℕ) (xs : List FVal) : List FVal :=
  let α : ℚ := 2 / (span + 1)
  match xs with
  | [] => []
  | x0 :: rest =>
      let st0 : EwmState :=
        { mean := x0, cov := FVal.num 0, sw := 1, sw2 := 1, ow := 1,
          nobs := if x0 = FVal.nan then 0 else 1 }
      FVal.nan :: ewmVarGo α st0 rest

/-! ## Real-valued domain for square roots

`Series.ewm(...).std()` is the square root of the EWM variance, and the
metrics use `returns.std()`; square roots are irrational in general, so the
position-sizing and metrics layers use an `FVal` analogue over ℝ. -/

/-- A numpy float value over the reals (used where square roots occur). -/
inductive RVal where
  | num (x : ℝ)
  | pinf
  | ninf
  | nan

/-- Embed an exact `FVal` into the real-valued domain. -/
def toRVal : FVal → RVal
  | .num q => .num (q : ℝ)
  | .pinf => .pinf
  | .ninf => .ninf
  | .nan => .nan

noncomputable section

open scoped Classical

/-- IEEE multiplication over `RVal`. -/
def RVal.mul : RVal → RVal → RVal
  | .nan, _ => .nan
  | _, .nan => .nan
  | .num a, .num b => .num (a * b)
  | .num a, .pinf => if 0 < a then .pinf else if a < 0 then .ninf else .nan
  | .pinf, .num a => if 0 < a then .pinf else if a < 0 then .ninf else .nan
  | .num a, .ninf => if 0 < a then .ninf else if a < 0 then .pinf else .nan
  | .ninf, .num a => if 0 < a then .ninf else if a < 0 then .pinf else .nan
  | .pinf, .pinf => .pinf
  | .pinf, .ninf => .ninf
  | .ninf, .pinf => .ninf
  | .ninf, .ninf => .pinf

/-- IEEE division over `RVal`. -/
def RVal.div : RVal → RVal → RVal
  | .nan, _ => .nan
  | _, .nan => .nan
  | .num a, .num b =>
      if b = 0 then (if a = 0 then .nan else if 0 < a then .pinf else .ninf)
      else .num (a / b)
  | .num _, .pinf => .num 0
  | .num _, .ninf => .num 0
  | .pinf, .num b => if b < 0 then .ninf else .pinf
  | .ninf, .num b => if b < 0 then .pinf else .ninf
  | .pinf, .pinf => .nan
  | .pinf, .ninf => .nan
  | .ninf, .pinf => .nan
  | .ninf, .ninf => .nan

/-- numpy `sqrt`: NaN on negative inputs, `Real.sqrt` on nonnegative ones. -/
def rsqrt : RVal → RVal
  | .num x => if x < 0 then .nan else .num (Real.sqrt x)
  | .pinf => .pinf
  | .ninf => .nan
  | .nan => .nan

/-! ## VolTargetSizing (src/position_sizing/vol_target_sizing.py) -/

/-- `VolTargetSizing.calculate_volatility`: EWM standard deviation of
percentage price changes, annualized by `np.sqrt(256) = 16`. -/
def calculate_volatility (lookback : ℕ) (prices : List ℚ) : List RVal :=
  (ewmVar lookback (pctChange prices)).map
    (fun v => (rsqrt (toRVal v)).mul (RVal.num 16))

/-- `VolTargetSizing.get_position_size`: dollar positions
`(vol_target * capital / (volatility * price)) * (forecast / 10)`. -/
def get_position_size (vol_target : ℚ) (lookback : ℕ) (forecast : List FVal)
    (prices : List ℚ) (capital : ℚ) : List RVal :=
  let volatility := calculate_volatility lookback prices
  let instrument_currency_vol :=
    List.zipWith (fun v p => v.mul (RVal.num (p : ℝ))) volatility prices
  let notional_position :=
    instrument_currency_vol.map
      (fun icv => (RVal.num ((vol_target * capital : ℚ) : ℝ)).div icv)
  List.zipWith (fun nv f => nv.mul ((toRVal f).div (RVal.num 10)))
    notional_position forecast

/-- `VolTargetSizing.get_leverage`: `|position * price| / capital`. -/
def get_leverage (position_size : List RVal) (prices : List ℚ)
    (capital : ℚ) : List RVal :=
  (List.zipWith (fun pos p => pos.mul (RVal.num (p : ℝ))) position_size prices).map
    (fun x =>
      (match x with
        | RVal.num v => RVal.num |v|
        | RVal.nan => RVal.nan
        | _ => RVal.pinf).div (RVal.num (capital : ℝ)))

/-! ## RollingWindowBacktest.calculate_metrics -/

/-- The metrics dictionary built by `RollingWindowBacktest.calculate_metrics`. -/
structure PerformanceMetrics where
  sharpe_ratio : RVal
  total_return : FVal
  annual_return : FVal
  max_drawdown : FVal
  win_rate : ℚ
  avg_win : FVal
  avg_loss : FVal
  profit_factor : FVal
  std_dev : RVal
  total_costs : FVal
  num_trades : ℕ

/-- `RollingWindowBacktest.calculate_metrics`: `None` when
`returns.std() == 0` or `len(returns) == 0`, else the metrics dictionary.
`returns.std()` is the square root of the ddof=1 sample variance;
`np.sqrt(256) = 16`. -/
def calculate_metrics (results : BacktestResults) : Option PerformanceMetrics :=
  let returns := results.returns
  let stdR := rsqrt (toRVal (sampleVarF returns))
  if stdR = RVal.num 0 ∨ returns.length = 0 then none
  else
    let cumulative := cumprod1p returns
    let running_max := runningMax cumulative
    let drawdown := List.zipWith (fun c m => (c.sub m).div m) cumulative running_max
    some
      { sharpe_ratio := ((toRVal (fmean returns)).div stdR).mul (RVal.num 16)
        total_return := (cumulative.getD (cumulative.length - 1) FVal.nan).sub (FVal.num 1)
        annual_return := (fmean returns).mul (FVal.num 256)
        max_drawdown := fminList drawdown
        win_rate := (returns.countP FVal.isPos : ℚ) / (returns.length : ℚ)
        avg_win :=
          if returns.any FVal.isPos then fmean (returns.filter FVal.isPos)
          else FVal.num 0
        avg_loss :=
          if returns.any FVal.isNeg then fmean (returns.filter FVal.isNeg)
          else FVal.num 0
        profit_factor :=
          if returns.any FVal.isNeg then
            (fsum (returns.filter FVal.isPos)).div
              (fsum ((returns.filter FVal.isNeg).map FVal.abs))
          else FVal.pinf
        std_dev := stdR
        total_costs := fsum results.costs
        num_trades := returns.length }

/-! ## PortfolioOptimizer (src/portfolio_u/portfolio_optimizer.py) -/

/-- The off-diagonal entries of a square matrix
(`correlation_matrix.values[~np.eye(n, dtype=bool)]`). -/
def offDiag (m : List (List ℚ)) : List ℚ :=
  (m.enum.map (fun ir =>
    (ir.2.enum.filter (fun jc => jc.1 ≠ ir.1)).map (fun jc => jc.2))).flatten

/-- The average off-diagonal correlation used by
`PortfolioOptimizer.calculate_fdm`. -/
def avgOffDiag (m : List (List ℚ)) : ℚ :=
  (offDiag m).sum / ((offDiag m).length : ℚ)

/-- `PortfolioOptimizer.calculate_fdm`: the average off-diagonal correlation
is floored at 0, then `FDM = 1/√(1 − avg)` if `avg < 1` else `1.0`.  When the
matrix has no off-diagonal entry, `numpy.mean` of the empty selection is NaN,
`max(NaN, 0.0)` is NaN, and `NaN < 1` is false, so the code returns `1.0`;
that branch is written out here. -/
def calculate_fdm (m : List (List ℚ)) : ℝ :=
  if offDiag m = [] then 1
  else
    let avg := max (avgOffDiag m) 0
    if avg < 1 then 1 / Real.sqrt (1 - (avg : ℝ)) else 1

end

/-- `PortfolioOptimizer.combine_forecasts`: the named forecast columns are
aligned into a DataFrame (missing entries are NaN, modelled here by the NaN
entries of the already-aligned columns).  Without weights, the row mean
(skipna); with weights, each column weight defaults to 1.0, weights are
normalized by their Python `sum`, and the weighted columns are summed per row
(skipna, so a NaN entry contributes nothing).  The result is clipped to
[-20, 20]. -/
def combine_forecasts (cols : List (String × List FVal))
    (correlation_weights : Option (List (String × ℚ))) : List FVal :=
  let nrows := (cols.map (fun c => c.2.length)).foldr max 0
  let rowAt := fun (r : ℕ) => cols.map (fun (c : String × List FVal) => c.2.getD r FVal.nan)
  let combined :=
    match correlation_weights with
    | none => (List.range nrows).map (fun r => fmean (rowAt r))
    | some w =>
        let ws : List ℚ :=
          cols.map (fun (c : String × List FVal) => ((List.lookup c.1 w).getD 1))
        let total := ws.sum
        let nws : List FVal := ws.map (fun x => (FVal.num x).div (FVal.num total))
        (List.range nrows).map
          (fun r => fsum (List.zipWith FVal.mul (rowAt r) nws))
  combined.map (fun (v : FVal) => v.clip (-20) 20)


/-- A trivial signal component (used to instantiate the generic engine at
concrete inputs): forecasts equal to the test prices. -/
def idSignal : List ℚ → Option (List ℚ) → List FVal :=
  fun p _ => p.map FVal.num

/-- A trivial sizing component: positions equal to the forecast. -/
def idSizing : List FVal → List ℚ → ℚ → List FVal :=
  fun f _ _ => f

/-! ## Helper lemmas -/

/-- `FVal.num` values are defined (not missing). -/
theorem num_ne_nan (q : ℚ) : FVal.num q ≠ FVal.nan := nofun

/-- `FVal.pinf` is not missing. -/
theorem pinf_ne_nan : FVal.pinf ≠ FVal.nan := nofun

/-- `FVal.ninf` is not missing. -/
theorem ninf_ne_nan : FVal.ninf ≠ FVal.nan := nofun

/-- Concrete evaluation: the forecast of the two-point series `[1, 2]` with
spans 1/3 scaled on itself. -/
theorem get_forecast_two_points :
    get_forecast 1 3 [1, 2] (some [1, 2]) = [FVal.num 0, FVal.num 20] := by
  norm_num [get_forecast, rawSignal, ewmaList, scalingFactor, scalingData,
    fmean, FVal.div, FVal.mul, FVal.add, FVal.clip, FVal.abs, List.filter_cons,
    num_ne_nan, pinf_ne_nan, abs_of_nonneg]

/-- Concrete evaluation: combining a single defined forecast column. -/
theorem combine_forecasts_single :
    combine_forecasts [("A", [FVal.num 5])] none = [FVal.num 5] := by
  norm_num [combine_forecasts, fmean, FVal.div, FVal.add, FVal.clip,
    List.filter_cons, num_ne_nan, List.range_succ]

/-- Membership bound for the ceiling-division element count of a Python
`range(start, stop, step)` loop. -/
theorem lt_ceil_div_iff (d t j : ℕ) (ht : 0 < t) :
    j < (d + t - 1) / t ↔ j * t < d := by
  rw [Nat.lt_iff_add_one_le, Nat.le_div_iff_mul_le ht, add_one_mul]
  omega

/-- Characterization of the walk-forward cursor values: `i` is a cursor iff
it starts at or after `train`, leaves a full test window strictly inside the
series (`i + test < n`, the exclusive `range` bound), and sits on the
`test`-stride grid. -/
theorem mem_walkCursors (n train test i : ℕ) (ht : 0 < test) :
    i ∈ walkCursors n train test ↔
      train ≤ i ∧ i + test < n ∧ test ∣ (i - train) := by
  unfold walkCursors
  rw [if_neg (Nat.pos_iff_ne_zero.mp ht)]
  simp only [List.mem_map, List.mem_range]
  constructor
  · rintro ⟨j, hj, rfl⟩
    have hlt := (lt_ceil_div_iff _ _ _ ht).1 hj
    have hcomm : j * test = test * j := Nat.mul_comm _ _
    exact ⟨Nat.le_add_right _ _, by omega, ⟨j, by omega⟩⟩
  · rintro ⟨h1, h2, k, hk⟩
    refine ⟨k, (lt_ceil_div_iff _ _ _ ht).2 ?_, ?_⟩ <;>
      rw [Nat.mul_comm] <;> omega

/-- When the series is too short for one full train+test split, no cursor
value exists. -/
theorem walkCursors_eq_nil (n train test : ℕ) (h : n < train + test) :
    walkCursors n train test = [] := by
  unfold walkCursors
  split
  · rfl
  · rw [show n - test - train + test - 1 = test - 1 by omega,
      Nat.div_eq_of_lt (by omega)]
    rfl

/-! ## C1: walk-forward cursor values -/

/-- C1 counterexample.  For a price series of length 400 with
`train_window = 252` and `test_window = 63`, the walk-forward loop of
`RollingWindowBacktest.run` executes TWO complete windows, at cursors 252
and 315 — not exactly one window with the cursor taking only the value 252,
as the claim states. -/
theorem walkCursors_len400_two_windows :
    walkCursors 400 252 63 = [252, 315] ∧ walkCursors 400 252 63 ≠ [252] := by
  constructor
  · rfl
  · decide

/-- C1 (amended).  For a price series of length 400 with `train_window=252`,
`test_window=63`, the cursor takes the values 252 and 315 (two complete
windows) and stops before 337; in general the cursor `i` iterates while
`i < length(prices) − test_window` (strict: the Python `range` end bound is
exclusive) in strides of `test_window`. -/
theorem walk_forward_cursor_iteration :
    walkCursors 400 252 63 = [252, 315] ∧
    ∀ n train test i, 0 < test →
      (i ∈ walkCursors n train test ↔
        train ≤ i ∧ i + test < n ∧ test ∣ (i - train)) := by
  exact ⟨rfl, fun n train test i ht => mem_walkCursors n train test i ht⟩

/-- Witness for `walk_forward_cursor_iteration` at a concrete input:
315 is a cursor for a 400-long series (so a second window executes). -/
theorem walk_forward_cursor_iteration_witness :
    0 < 63 ∧ (252 ≤ 315 ∧ 315 + 63 < 400 ∧ 63 ∣ (315 - 252)) :=
  ⟨by decide,
    (walk_forward_cursor_iteration.2 400 252 63 315 (by decide)).1 (by decide)⟩

/-! ## C2: the scaling factor depends only on the reference window -/

/-- C2.  When a non-None training series `t` is supplied, the scaling factor
used by `EWMASignal.get_forecast` is a function of `t` alone: two calls with
different evaluation price series `p1` and `p2` but the same `t` use the
same factor, and the forecast is exactly the evaluation raw signal scaled by
that reference-only factor (then clipped). -/
theorem scaling_factor_reference_only :
    ∀ (fast slow : ℕ) (t p1 p2 : List ℚ),
      scalingFactor fast slow (scalingData p1 (some t)) =
        scalingFactor fast slow (scalingData p2 (some t)) ∧
      get_forecast fast slow p1 (some t) =
        (rawSignal fast slow p1).map
          (fun r => (r.mul (scalingFactor fast slow t)).clip (-20) 20) :=
  fun _ _ _ _ _ => ⟨rfl, rfl⟩

/-! ## C3: clip invariant -/

/-- Any defined (finite) value produced by `.clip(-20, 20)` lies in
`[-20, 20]`. -/
theorem clip_num_bounds {v : FVal} {q : ℚ}
    (h : v.clip (-20) 20 = FVal.num q) : -20 ≤ q ∧ q ≤ 20 := by
  cases v with
  | num a =>
      simp only [FVal.clip, FVal.num.injEq] at h
      subst h
      split
      · norm_num
      · split
        · norm_num
        · constructor <;> linarith
  | pinf => simp only [FVal.clip, FVal.num.injEq] at h; subst h; norm_num
  | ninf => simp only [FVal.clip, FVal.num.injEq] at h; subst h; norm_num
  | nan => simp [FVal.clip] at h

/-- C3.  Every defined value of a forecast series returned by
`EWMASignal.get_forecast`, and of a combined series returned by
`PortfolioOptimizer.combine_forecasts`, lies in the closed interval
`[-20, 20]` (NaN entries are missing data, not values). -/
theorem forecast_values_clipped :
    (∀ (fast slow : ℕ) (prices : List ℚ) (train : Option (List ℚ)) (v : FVal),
       v ∈ get_forecast fast slow prices train →
       ∀ q, v = FVal.num q → -20 ≤ q ∧ q ≤ 20) ∧
    (∀ (cols : List (String × List FVal)) (w : Option (List (String × ℚ)))
       (v : FVal), v ∈ combine_forecasts cols w →
       ∀ q, v = FVal.num q → -20 ≤ q ∧ q ≤ 20) := by
  constructor
  · intro fast slow prices train v hv q hq
    subst hq
    obtain ⟨r, -, hr⟩ := List.mem_map.1 hv
    exact clip_num_bounds hr
  · intro cols w v hv q hq
    subst hq
    obtain ⟨r, -, hr⟩ := List.mem_map.1 hv
    exact clip_num_bounds hr

/-- Witness for `forecast_values_clipped`: concrete defined outputs of both
the signal generator and the combiner are within the bounds. -/
theorem forecast_values_clipped_witness :
    ((-20 : ℚ) ≤ 20 ∧ (20 : ℚ) ≤ 20) ∧ ((-20 : ℚ) ≤ 5 ∧ (5 : ℚ) ≤ 20) :=
  ⟨forecast_values_clipped.1 1 3 [1, 2] (some [1, 2]) (FVal.num 20)
      (by rw [get_forecast_two_points]; simp) 20 rfl,
    forecast_values_clipped.2 [("A", [FVal.num 5])] none (FVal.num 5)
      (by rw [combine_forecasts_single]; simp) 5 rfl⟩

/-! ## C4: degenerate reference magnitude -/

/-- Concrete evaluation: on a constant reference series the raw signal's
mean absolute value is zero. -/
theorem fmean_raw_const4 :
    fmean ((rawSignal 8 32 [100, 100, 100, 100]).map FVal.abs) = FVal.num 0 := by
  norm_num [rawSignal, ewmaList, fmean, FVal.div, FVal.add, FVal.abs,
    List.filter_cons, num_ne_nan]

/-- Concrete evaluation: on a constant price series (used as its own
reference) the forecast comes back as an all-NaN series. -/
theorem forecast_const4_eval :
    get_forecast 8 32 [100, 100, 100, 100] (some [100, 100, 100, 100]) =
      [FVal.nan, FVal.nan, FVal.nan, FVal.nan] := by
  norm_num [get_forecast, rawSignal, ewmaList, scalingFactor, scalingData,
    fmean, FVal.div, FVal.mul, FVal.add, FVal.clip, FVal.abs, List.filter_cons,
    num_ne_nan, pinf_ne_nan]

/-- C4 counterexample.  For the constant price series `[100, 100, 100, 100]`
(fast=8, slow=32, reference = the same series, reference magnitude = 0),
`EWMASignal.get_forecast` does NOT fail: no `DegenerateSignalError` exists in
the code, and the call returns a forecast series (every entry NaN, since the
scaling factor is `10/0 = inf` and `0 × inf = NaN`). -/
theorem constant_prices_forecast_returns_all_nan :
    get_forecast 8 32 [100, 100, 100, 100] (some [100, 100, 100, 100]) =
      [FVal.nan, FVal.nan, FVal.nan, FVal.nan] :=
  forecast_const4_eval

/-- C4 (amended).  When the reference raw signal has zero mean absolute
value, `get_forecast` raises nothing: the scaling factor is `+inf` and the
returned series contains only NaN (where the evaluation raw signal is zero,
e.g. everywhere for a constant evaluation series) or saturated ±20 values. -/
theorem degenerate_reference_behavior :
    ∀ (fast slow : ℕ) (prices t : List ℚ),
      fmean ((rawSignal fast slow t).map FVal.abs) = FVal.num 0 →
      scalingFactor fast slow t = FVal.pinf ∧
      ∀ v ∈ get_forecast fast slow prices (some t),
        v = FVal.nan ∨ v = FVal.num 20 ∨ v = FVal.num (-20) := by
  intro fast slow prices t h
  have hsf : scalingFactor fast slow t = FVal.pinf := by
    rw [scalingFactor, h]
    norm_num [FVal.div]
  refine ⟨hsf, ?_⟩
  intro v hv
  rw [get_forecast] at hv
  simp only [scalingData] at hv
  obtain ⟨r, -, rfl⟩ := List.mem_map.1 hv
  rw [hsf]
  cases r with
  | num a =>
      rcases lt_trichotomy a 0 with hlt | heq | hgt
      · right; right
        have hm : (FVal.num a).mul FVal.pinf = FVal.ninf := by
          simp only [FVal.mul]
          rw [if_neg (by linarith), if_pos hlt]
        rw [hm]; rfl
      · subst heq; left; rfl
      · right; left
        have hm : (FVal.num a).mul FVal.pinf = FVal.pinf := by
          simp only [FVal.mul]
          rw [if_pos hgt]
        rw [hm]; rfl
  | pinf => right; left; rfl
  | ninf => right; right; rfl
  | nan => left; rfl

/-- Witness for `degenerate_reference_behavior` at the constant series. -/
theorem degenerate_reference_behavior_witness :
    fmean ((rawSignal 8 32 [100, 100, 100, 100]).map FVal.abs) = FVal.num 0 ∧
    (FVal.nan = FVal.nan ∨ FVal.nan = FVal.num 20 ∨ FVal.nan = FVal.num (-20)) :=
  ⟨fmean_raw_const4,
    (degenerate_reference_behavior 8 32 [100, 100, 100, 100]
        [100, 100, 100, 100] fmean_raw_const4).2 FVal.nan
      (by rw [forecast_const4_eval]; simp)⟩

/-! ## C6 / C7: short or malformed windows -/

/-- When no cursor value exists, `run` returns the empty result. -/
theorem run_empty_of_no_cursors
    (signal : List ℚ → Option (List ℚ) → List FVal)
    (sizing : List FVal → List ℚ → ℚ → List FVal)
    (train test : ℕ) (prices : List ℚ) (capital tc : ℚ)
    (h : walkCursors prices.length train test = []) :
    run signal sizing train test prices capital tc =
      { timestamps := [], returns := [], forecasts := [], positions := [],
        costs := [], cumulative_returns := [] } := by
  unfold run runRows
  rw [h]
  rfl

/-- C6.  A price series shorter than `train_window + test_window` executes
zero windows and yields an all-empty result (not an error), and
`calculate_metrics` returns `None` (not an error) on any result whose return
series is empty or has zero variance (equivalently zero standard deviation,
`std = √var`). -/
theorem short_series_empty_run_and_metrics_none :
    (∀ (signal : List ℚ → Option (List ℚ) → List FVal)
       (sizing : List FVal → List ℚ → ℚ → List FVal)
       (train test : ℕ) (prices : List ℚ) (capital tc : ℚ),
       prices.length < train + test →
       run signal sizing train test prices capital tc =
         { timestamps := [], returns := [], forecasts := [], positions := [],
           costs := [], cumulative_returns := [] }) ∧
    (∀ res : BacktestResults, res.returns.length = 0 →
       calculate_metrics res = none) ∧
    (∀ res : BacktestResults, sampleVarF res.returns = FVal.num 0 →
       calculate_metrics res = none) := by
  refine ⟨?_, ?_, ?_⟩
  · intro signal sizing train test prices capital tc h
    exact run_empty_of_no_cursors signal sizing train test prices capital tc
      (walkCursors_eq_nil _ _ _ h)
  · intro res h
    rw [calculate_metrics, if_pos (Or.inr h)]
  · intro res h
    rw [calculate_metrics]
    rw [if_pos]
    left
    rw [h]
    simp [toRVal, rsqrt, Real.sqrt_zero]

/-- Concrete evaluation: the sample variance of two equal returns is zero. -/
theorem sampleVarF_two_ones :
    sampleVarF [FVal.num 1, FVal.num 1] = FVal.num 0 := by
  norm_num [sampleVarF, FVal.add, FVal.sub, FVal.neg, FVal.mul, FVal.div,
    List.filter_cons, num_ne_nan]

/-- Witness for `short_series_empty_run_and_metrics_none` at concrete inputs. -/
theorem short_series_empty_run_and_metrics_none_witness :
    ((3 : ℕ) < 2 + 2 ∧
      run idSignal idSizing 2 2 [1, 2, 3] 1 0 =
        { timestamps := [], returns := [], forecasts := [], positions := [],
          costs := [], cumulative_returns := [] }) ∧
    calculate_metrics
        { timestamps := [], returns := [], forecasts := [], positions := [],
          costs := [], cumulative_returns := [] } = none ∧
    (sampleVarF [FVal.num 1, FVal.num 1] = FVal.num 0 ∧
      calculate_metrics
          { timestamps := [], returns := [FVal.num 1, FVal.num 1],
            forecasts := [], positions := [], costs := [],
            cumulative_returns := [] } = none) :=
  ⟨⟨by norm_num,
      short_series_empty_run_and_metrics_none.1 idSignal idSizing 2 2 [1, 2, 3]
        1 0 (by norm_num)⟩,
    short_series_empty_run_and_metrics_none.2.1 _ rfl,
    sampleVarF_two_ones,
    short_series_empty_run_and_metrics_none.2.2 _ sampleVarF_two_ones⟩

/-- C7 counterexample.  With `train_window = 100` larger than the whole
10-point price history (a malformed configuration per the claim),
`RollingWindowBacktest.run` does NOT fail fast with `InvalidWindowError` —
no such exception exists anywhere in the code, and no validation is
performed; the call simply returns an empty result. -/
theorem oversized_train_window_returns_empty_result :
    run idSignal idSizing 100 63 [1, 2, 3, 4, 5, 6, 7, 8, 9, 10] 100000
        (1 / 10000) =
      { timestamps := [], returns := [], forecasts := [], positions := [],
        costs := [], cumulative_returns := [] } :=
  run_empty_of_no_cursors _ _ _ _ _ _ _ (by decide)

/-- C7 (amended).  `run` performs no window validation: a train window
larger than the full price history produces zero cursor values and an empty
result, returned normally rather than raising any error. -/
theorem malformed_window_returns_empty_result :
    ∀ (signal : List ℚ → Option (List ℚ) → List FVal)
      (sizing : List FVal → List ℚ → ℚ → List FVal)
      (train test : ℕ) (prices : List ℚ) (capital tc : ℚ),
      prices.length < train →
      walkCursors prices.length train test = [] ∧
      run signal sizing train test prices capital tc =
        { timestamps := [], returns := [], forecasts := [], positions := [],
          costs := [], cumulative_returns := [] } := by
  intro signal sizing train test prices capital tc h
  have hc := walkCursors_eq_nil prices.length train test (by omega)
  exact ⟨hc, run_empty_of_no_cursors signal sizing train test prices capital tc hc⟩

/-- Witness for `malformed_window_returns_empty_result`. -/
theorem malformed_window_returns_empty_result_witness :
    (List.length ([1, 2, 3] : List ℚ) < 7) ∧ walkCursors 3 7 2 = [] :=
  ⟨by norm_num,
    (malformed_window_returns_empty_result idSignal idSizing 7 2 [1, 2, 3] 1 0
      (by norm_num)).1⟩

/-! ## C8: FDM bounds -/

/-- Concrete evaluation: the off-diagonal entries of the 2×2 correlation
matrix of two exactly opposite forecasts. -/
theorem offDiag_negatives : offDiag [[1, -1], [-1, 1]] = [-1, -1] := rfl

/-- C8.  `PortfolioOptimizer.calculate_fdm` always returns a value ≥ 1;
it returns exactly 1.0 whenever the average off-diagonal correlation is ≤ 0
(the average is floored at 0), and 1.0 when the average is ≥ 1.  In
particular a correlation matrix of two exactly opposite forecasts
(off-diagonal correlation −1) yields FDM = 1.0. -/
theorem fdm_bounds :
    ∀ m : List (List ℚ),
      1 ≤ calculate_fdm m ∧
      (avgOffDiag m ≤ 0 → calculate_fdm m = 1) ∧
      (1 ≤ avgOffDiag m → calculate_fdm m = 1) := by
  intro m
  unfold calculate_fdm
  by_cases hemp : offDiag m = []
  · rw [if_pos hemp]
    exact ⟨le_refl 1, fun _ => rfl, fun _ => rfl⟩
  · rw [if_neg hemp]
    simp only []
    refine ⟨?_, ?_, ?_⟩
    · by_cases hlt : max (avgOffDiag m) 0 < 1
      · rw [if_pos hlt]
        have ha0 : (0 : ℝ) ≤ (max (avgOffDiag m) 0 : ℚ) := by
          exact_mod_cast le_max_right (avgOffDiag m) 0
        have ha1 : ((max (avgOffDiag m) 0 : ℚ) : ℝ) < 1 := by exact_mod_cast hlt
        have h1 : (0 : ℝ) < 1 - ((max (avgOffDiag m) 0 : ℚ) : ℝ) := by linarith
        have hs0 : 0 < Real.sqrt (1 - ((max (avgOffDiag m) 0 : ℚ) : ℝ)) :=
          Real.sqrt_pos.2 h1
        have hs1 : Real.sqrt (1 - ((max (avgOffDiag m) 0 : ℚ) : ℝ)) ≤ 1 :=
          Real.sqrt_le_one.2 (by linarith)
        rw [le_div_iff₀ hs0, one_mul]
        exact hs1
      · rw [if_neg hlt]
    · intro hle
      have hz : max (avgOffDiag m) 0 = 0 := max_eq_right hle
      rw [hz]
      rw [if_pos (by norm_num)]
      norm_num [Real.sqrt_one]
    · intro hge
      have hnlt : ¬ max (avgOffDiag m) 0 < 1 :=
        not_lt.2 (le_trans hge (le_max_left _ _))
      rw [if_neg hnlt]

/-- Witness for `fdm_bounds`: the exact-negatives scenario. -/
theorem fdm_bounds_witness :
    avgOffDiag [[1, -1], [-1, 1]] ≤ 0 ∧ calculate_fdm [[1, -1], [-1, 1]] = 1 :=
  ⟨by norm_num [avgOffDiag, offDiag_negatives],
    (fdm_bounds [[1, -1], [-1, 1]]).2.1
      (by norm_num [avgOffDiag, offDiag_negatives])⟩

/-! ## C10: the final observation is never tested -/

/-- Every row produced by a single walk-forward window at cursor `i` carries
a timestamp inside the test slice: `t = i + j` with `j` below the test-slice
length. -/
theorem runWindow_timestamp_shape
    (signal : List ℚ → Option (List ℚ) → List FVal)
    (sizing : List FVal → List ℚ → ℚ → List FVal)
    (train test : ℕ) (prices : List ℚ) (capital tc : ℚ) (i : ℕ)
    (row : WindowRow)
    (h : row ∈ runWindow signal sizing train test prices capital tc i) :
    ∃ j, j < ((prices.drop i).take test).length ∧ row.t = i + j := by
  simp only [runWindow] at h
  obtain ⟨p, hp, rfl⟩ := List.mem_map.1 h
  have hpz := (List.of_mem_zip (List.mem_filter.1 hp).1).1
  obtain ⟨j, hj, hje⟩ := List.mem_map.1 hpz
  rw [List.mem_range] at hj
  exact ⟨j, hj, hje.symm⟩

/-- C10.  For positive window parameters, every test window lies strictly
inside the price history (`i + test_window < length`, so the final
observation is never part of any test slice), and every timestamp of the
returned result strictly precedes the last timestamp of the input series. -/
theorem result_timestamps_before_last :
    ∀ (signal : List ℚ → Option (List ℚ) → List FVal)
      (sizing : List FVal → List ℚ → ℚ → List FVal)
      (train test : ℕ) (prices : List ℚ) (capital tc : ℚ),
      0 < train → 0 < test →
      (∀ i ∈ walkCursors prices.length train test,
        i + test < prices.length) ∧
      ∀ t ∈ (run signal sizing train test prices capital tc).timestamps,
        t + 1 < prices.length := by
  intro signal sizing train test prices capital tc htr hte
  have hcur : ∀ i ∈ walkCursors prices.length train test,
      i + test < prices.length := by
    intro i hi
    exact ((mem_walkCursors _ _ _ _ hte).1 hi).2.1
  refine ⟨hcur, ?_⟩
  intro t ht
  simp only [run, runRows] at ht
  obtain ⟨row, hrow, rfl⟩ := List.mem_map.1 ht
  obtain ⟨l, hl, hrl⟩ := List.mem_flatten.1 hrow
  obtain ⟨i, hi, rfl⟩ := List.mem_map.1 hl
  obtain ⟨j, hj, hjt⟩ :=
    runWindow_timestamp_shape signal sizing train test prices capital tc i
      row hrl
  have hlen : ((prices.drop i).take test).length ≤ test := by
    simp [List.length_take]
  have hbound := hcur i hi
  omega

/-- Witness for `result_timestamps_before_last`: a concrete run whose single
result timestamp (2) strictly precedes the last index (4) of a 5-point
series. -/
theorem result_timestamps_before_last_witness :
    ((0 : ℕ) < 1 ∧ (0 : ℕ) < 2) ∧ 2 + 1 < List.length ([1, 2, 3, 4, 5] : List ℚ) := by
  refine ⟨⟨by norm_num, by norm_num⟩, ?_⟩
  refine (result_timestamps_before_last idSignal idSizing 1 2 [1, 2, 3, 4, 5]
    100 0 (by norm_num) (by norm_num)).2 2 ?_
  norm_num [run, runRows, runWindow, walkCursors, idSignal, idSizing,
    pctChange, shift1, FVal.mul, FVal.add, FVal.sub, FVal.neg, FVal.abs,
    FVal.div, List.filter_cons, num_ne_nan, List.range_succ]

/-! ## C5: zero or missing volatility -/

/-- `pct_change` preserves series length. -/
theorem length_pctChange (l : List ℚ) : (pctChange l).length = l.length := by
  cases l with
  | nil => rfl
  | cons p rest => simp [pctChange]

/-- The EWM variance recursion tail preserves length. -/
theorem length_ewmVarGo (α : ℚ) (st : EwmState) (l : List FVal) :
    (ewmVarGo α st l).length = l.length := by
  induction l generalizing st with
  | nil => rfl
  | cons c cs ih => simp [ewmVarGo, ih]

/-- `ewmVar` preserves series length. -/
theorem length_ewmVar (span : ℕ) (l : List FVal) :
    (ewmVar span l).length = l.length := by
  cases l with
  | nil => rfl
  | cons x rest => simp [ewmVar, length_ewmVarGo]

/-- `calculate_volatility` yields one estimate per price observation. -/
theorem length_calculate_volatility (lookback : ℕ) (prices : List ℚ) :
    (calculate_volatility lookback prices).length = prices.length := by
  simp [calculate_volatility, length_ewmVar, length_pctChange]

/-- `get_position_size` yields `min (length prices) (length forecast)`
positions. -/
theorem length_get_position_size (vol_target : ℚ) (lookback : ℕ)
    (forecast : List FVal) (prices : List ℚ) (capital : ℚ) :
    (get_position_size vol_target lookback forecast prices capital).length =
      min prices.length forecast.length := by
  simp [get_position_size, List.length_zipWith, length_calculate_volatility]

/-- Concrete evaluation: EWM variance of the returns of a constant price
series — NaN for the first two positions, then exactly zero. -/
theorem ewmVar_const4 :
    ewmVar 25 (pctChange [100, 100, 100, 100]) =
      [FVal.nan, FVal.nan, FVal.num 0, FVal.num 0] := by
  norm_num [ewmVar, ewmVarGo, ewmVarStep, pctChange, FVal.div, FVal.sub,
    FVal.add, FVal.neg, FVal.mul, num_ne_nan]

/-- Concrete evaluation: the annualized volatility of a constant price
series is missing at the first two positions and zero afterwards. -/
theorem vol_const4 :
    calculate_volatility 25 [100, 100, 100, 100] =
      [RVal.nan, RVal.nan, RVal.num 0, RVal.num 0] := by
  rw [calculate_volatility, ewmVar_const4]
  norm_num [toRVal, rsqrt, RVal.mul, Real.sqrt_zero]

/-- Concrete evaluation: at a timestamp with zero volatility and forecast
10, the position is `+inf`. -/
theorem pos_const4 :
    (get_position_size (1 / 4) 25
        [FVal.num 10, FVal.num 10, FVal.num 10, FVal.num 10]
        [100, 100, 100, 100] 100000).getD 2 RVal.nan = RVal.pinf := by
  rw [get_position_size, vol_const4]
  norm_num [RVal.mul, RVal.div, toRVal, List.getD]

/-- NaN absorbs through `RVal` multiplication (first operand). -/
theorem RVal.nan_mul (y : RVal) : RVal.nan.mul y = RVal.nan := by
  cases y <;> rfl

/-- NaN absorbs through `RVal` division (second operand). -/
theorem RVal.div_nan (x : RVal) : x.div RVal.nan = RVal.nan := by
  cases x <;> rfl

/-- C5 counterexample.  At a timestamp where the volatility estimate is
exactly zero (constant prices, index 2) and the forecast is 10,
`VolTargetSizing.get_position_size` yields `+inf` — a defined infinite
position, NOT an undefined (missing) value as the claim states. -/
theorem zero_volatility_position_infinite_not_missing :
    (calculate_volatility 25 [100, 100, 100, 100]).getD 2 RVal.nan =
        RVal.num 0 ∧
    (get_position_size (1 / 4) 25
        [FVal.num 10, FVal.num 10, FVal.num 10, FVal.num 10]
        [100, 100, 100, 100] 100000).getD 2 RVal.nan = RVal.pinf ∧
    RVal.pinf ≠ RVal.nan := by
  refine ⟨by rw [vol_const4]; rfl, pos_const4, ?_⟩
  intro h
  cases h

/-- C5 (amended).  `get_position_size` never raises: at a timestamp with a
missing (NaN) volatility estimate the position is missing, and at a
timestamp with a zero volatility estimate the position is `±inf` (infinite
when the forecast is nonzero) or missing — never a finite value. -/
theorem position_on_zero_or_missing_vol :
    ∀ (vol_target capital : ℚ) (lookback : ℕ) (forecast : List FVal)
      (prices : List ℚ) (t : ℕ),
      0 < vol_target * capital →
      ((calculate_volatility lookback prices).getD t RVal.nan = RVal.nan →
        (get_position_size vol_target lookback forecast prices capital).getD t
          RVal.nan = RVal.nan) ∧
      ((calculate_volatility lookback prices).getD t RVal.nan = RVal.num 0 →
        ((get_position_size vol_target lookback forecast prices capital).getD t
            RVal.nan = RVal.pinf ∨
         (get_position_size vol_target lookback forecast prices capital).getD t
            RVal.nan = RVal.ninf ∨
         (get_position_size vol_target lookback forecast prices capital).getD t
            RVal.nan = RVal.nan)) := by
  intro vt cap lb fc prices t hpos
  by_cases hin : t < (get_position_size vt lb fc prices cap).length
  case neg =>
    have hd : (get_position_size vt lb fc prices cap).getD t RVal.nan =
        RVal.nan := by
      simp [List.getD_eq_getElem?_getD,
        List.getElem?_eq_none (le_of_not_lt hin)]
    exact ⟨fun _ => hd, fun _ => Or.inr (Or.inr hd)⟩
  case pos =>
    rw [length_get_position_size] at hin
    have htp : t < prices.length := by omega
    have htf : t < fc.length := by omega
    have htv : t < (calculate_volatility lb prices).length := by
      rw [length_calculate_volatility]; exact htp
    obtain ⟨v, hv⟩ : ∃ v, (calculate_volatility lb prices)[t]? = some v :=
      ⟨_, List.getElem?_eq_getElem htv⟩
    obtain ⟨p, hp⟩ : ∃ p, prices[t]? = some p :=
      ⟨_, List.getElem?_eq_getElem htp⟩
    obtain ⟨f, hf⟩ : ∃ f, fc[t]? = some f :=
      ⟨_, List.getElem?_eq_getElem htf⟩
    have hkey : (get_position_size vt lb fc prices cap).getD t RVal.nan =
        ((RVal.num ((vt * cap : ℚ) : ℝ)).div (v.mul (RVal.num (p : ℝ)))).mul
          ((toRVal f).div (RVal.num 10)) := by
      simp [get_position_size, List.getD_eq_getElem?_getD,
        List.getElem?_zipWith, List.getElem?_map, hv, hp, hf]
    have hvol : (calculate_volatility lb prices).getD t RVal.nan = v := by
      simp [List.getD_eq_getElem?_getD, hv]
    constructor
    · intro hnan
      rw [hvol] at hnan
      subst hnan
      rw [hkey, RVal.nan_mul, RVal.div_nan, RVal.nan_mul]
    · intro hz
      rw [hvol] at hz
      subst hz
      rw [hkey]
      have hA : (0 : ℝ) < ((vt * cap : ℚ) : ℝ) := by exact_mod_cast hpos
      have hicv : (RVal.num 0).mul (RVal.num (p : ℝ)) = RVal.num 0 := by
        simp [RVal.mul]
      rw [hicv]
      have hdiv : (RVal.num ((vt * cap : ℚ) : ℝ)).div (RVal.num 0) =
          RVal.pinf := by
        simp only [RVal.div]
        rw [if_pos trivial, if_neg (ne_of_gt hA), if_pos hA]
      rw [hdiv]
      cases f with
      | nan => right; right; rfl
      | pinf =>
          left
          have hx : (toRVal FVal.pinf).div (RVal.num 10) = RVal.pinf := by
            simp only [toRVal, RVal.div]
            rw [if_neg (by norm_num)]
          rw [hx]; rfl
      | ninf =>
          right; left
          have hx : (toRVal FVal.ninf).div (RVal.num 10) = RVal.ninf := by
            simp only [toRVal, RVal.div]
            rw [if_neg (by norm_num)]
          rw [hx]; rfl
      | num q =>
          have hx : (toRVal (FVal.num q)).div (RVal.num 10) =
              RVal.num ((q : ℝ) / 10) := by
            simp only [toRVal, RVal.div]
            rw [if_neg (by norm_num)]
          rw [hx]
          rcases lt_trichotomy ((q : ℝ) / 10) 0 with h | h | h
          · right; left
            simp only [RVal.mul]
            rw [if_neg (by linarith), if_pos h]
          · right; right
            simp only [RVal.mul]
            rw [if_neg (by rw [h]; exact lt_irrefl 0),
              if_neg (by rw [h]; exact lt_irrefl 0)]
          · left
            simp only [RVal.mul]
            rw [if_pos h]

/-- Witness for `position_on_zero_or_missing_vol` at the constant-price
scenario. -/
theorem position_on_zero_or_missing_vol_witness :
    ((0 : ℚ) < 1 / 4 * 100000 ∧
      (calculate_volatility 25 [100, 100, 100, 100]).getD 2 RVal.nan =
        RVal.num 0) ∧
    ((get_position_size (1 / 4) 25
        [FVal.num 10, FVal.num 10, FVal.num 10, FVal.num 10]
        [100, 100, 100, 100] 100000).getD 2 RVal.nan = RVal.pinf ∨
     (get_position_size (1 / 4) 25
        [FVal.num 10, FVal.num 10, FVal.num 10, FVal.num 10]
        [100, 100, 100, 100] 100000).getD 2 RVal.nan = RVal.ninf ∨
     (get_position_size (1 / 4) 25
        [FVal.num 10, FVal.num 10, FVal.num 10, FVal.num 10]
        [100, 100, 100, 100] 100000).getD 2 RVal.nan = RVal.nan) :=
  ⟨⟨by norm_num, by rw [vol_const4]; rfl⟩,
    (position_on_zero_or_missing_vol (1 / 4) 100000 25
        [FVal.num 10, FVal.num 10, FVal.num 10, FVal.num 10]
        [100, 100, 100, 100] 2 (by norm_num)).2
      (by rw [vol_const4]; rfl)⟩

/-! ## C9: equal weights versus unweighted mean -/

/-- Looking up any present name in a constant-weight association list built
from the columns returns that constant weight. -/
theorem lookup_const_weight (w : ℚ) (cols : List (String × List FVal))
    (name : String) (h : name ∈ cols.map Prod.fst) :
    List.lookup name (cols.map (fun c => (c.1, w))) = some w := by
  induction cols with
  | nil => simp at h
  | cons c cs ih =>
      by_cases hc : name = c.1
      · subst hc
        simp [List.lookup]
      · have hb : (name == c.1) = false := beq_eq_false_iff_ne.2 hc
        simp only [List.map_cons, List.lookup, hb]
        apply ih
        simp only [List.map_cons, List.mem_cons] at h
        exact h.resolve_left hc

/-- Filtering NaN out of an all-defined series is the identity. -/
theorem filter_map_num (qs : List ℚ) :
    (qs.map FVal.num).filter (fun v => v ≠ FVal.nan) = qs.map FVal.num := by
  induction qs with
  | nil => rfl
  | cons q qs ih => simp [List.filter_cons, num_ne_nan, ih]

/-- Folding `FVal.add` over an all-defined series adds the rationals. -/
theorem foldl_add_map_num (qs : List ℚ) (a : ℚ) :
    (qs.map FVal.num).foldl FVal.add (FVal.num a) = FVal.num (a + qs.sum) := by
  induction qs generalizing a with
  | nil => simp
  | cons q qs ih => simp [FVal.add, ih, add_assoc]

/-- `fsum` on an all-defined series is the rational sum. -/
theorem fsum_map_num (qs : List ℚ) :
    fsum (qs.map FVal.num) = FVal.num qs.sum := by
  rw [fsum, filter_map_num, foldl_add_map_num, zero_add]

/-- `fmean` on a nonempty all-defined series is the rational mean. -/
theorem fmean_map_num (qs : List ℚ) (h : qs ≠ []) :
    fmean (qs.map FVal.num) = FVal.num (qs.sum / qs.length) := by
  rw [fmean]
  simp only [filter_map_num, List.length_map]
  rw [if_neg (by simpa using h), foldl_add_map_num, zero_add]
  simp only [FVal.div]
  rw [if_neg (by exact_mod_cast (List.length_pos.2 h).ne')]

/-- Multiplying an all-defined series elementwise by a defined constant. -/
theorem zipWith_mul_map_num (qs : List ℚ) (c : ℚ) :
    List.zipWith FVal.mul (qs.map FVal.num)
        (List.replicate qs.length (FVal.num c)) =
      (qs.map (fun q => q * c)).map FVal.num := by
  induction qs with
  | nil => rfl
  | cons q qs ih => simp [List.replicate, FVal.mul, ih]

/-- Summing a constant multiple. -/
theorem sum_map_mul_const (qs : List ℚ) (c : ℚ) :
    (qs.map (fun q => q * c)).sum = qs.sum * c := by
  induction qs with
  | nil => simp
  | cons q qs ih => simp [ih]; ring

/-- `foldr max 0` over a constant positive-length list of naturals. -/
theorem foldr_max_replicate (k n : ℕ) (h : 0 < k) :
    (List.replicate k n).foldr max 0 = n := by
  induction k with
  | zero => omega
  | succ k ih =>
      cases Nat.eq_zero_or_pos k with
      | inl hz => subst hz; simp
      | inr hp => simp [List.replicate, ih hp]

/-- A constant-function map is a replicate. -/
theorem map_const_eq_replicate {α β : Type} (l : List α) (b : β) :
    l.map (fun _ => b) = List.replicate l.length b := by
  induction l with
  | nil => rfl
  | cons a l ih => simp [List.replicate, ih]

/-- A row extracted (at an in-bounds index) from all-defined equal-length
columns is an all-defined list of the columns' length. -/
theorem row_all_num (cols : List (String × List FVal)) (n r : ℕ) (hr : r < n)
    (hcols : ∀ c ∈ cols, ∃ qs : List ℚ, c.2 = qs.map FVal.num ∧ qs.length = n) :
    ∃ qs : List ℚ,
      cols.map (fun c => c.2.getD r FVal.nan) = qs.map FVal.num ∧
      qs.length = cols.length := by
  induction cols with
  | nil => exact ⟨[], rfl, rfl⟩
  | cons c cs ih =>
      obtain ⟨qs, hq, hlen⟩ := hcols c (List.mem_cons_self c cs)
      obtain ⟨rest, hrest, hrl⟩ :=
        ih (fun d hd => hcols d (List.mem_cons_of_mem c hd))
      refine ⟨qs.getD r 0 :: rest, ?_, by simp [hrl]⟩
      simp only [List.map_cons, hrest]
      congr 1
      rw [hq, List.getD_eq_getElem?_getD, List.getElem?_map,
        List.getD_eq_getElem?_getD]
      have hq' : qs[r]? = some qs[r] :=
        List.getElem?_eq_getElem (by omega)
      rw [hq']
      rfl

/-- C9 counterexample.  With a timestamp where one series is defined (10)
and the other missing, the unweighted combination (pandas row mean, skipna)
gives 10, while the explicit equal-weight combination (normalized weighted
sum, skipna treats the missing entry as 0) gives 5: the two calls differ. -/
theorem equal_weights_differ_on_missing_entries :
    combine_forecasts [("A", [FVal.num 10]), ("B", [FVal.nan])] none =
        [FVal.num 10] ∧
    combine_forecasts [("A", [FVal.num 10]), ("B", [FVal.nan])]
        (some [("A", 1), ("B", 1)]) = [FVal.num 5] ∧
    FVal.num 10 ≠ FVal.num 5 := by
  refine ⟨?_, ?_, ?_⟩
  · norm_num [combine_forecasts, fmean, FVal.div, FVal.add, FVal.clip,
      List.filter_cons, num_ne_nan, List.range_succ]
  · norm_num [combine_forecasts, fsum, FVal.div, FVal.add, FVal.mul,
      FVal.clip, List.filter_cons, num_ne_nan, List.range_succ, List.lookup,
      show (("B" : String) == "A") = false from rfl,
      show (("A" : String) == "A") = true from rfl]
  · intro h
    injection h with h'
    norm_num at h'

/-- C9 (amended).  When every named series is fully defined (no missing
entries) with a common length, assigning the same nonzero weight to every
name reproduces the unweighted arithmetic-mean combination exactly. -/
theorem equal_weights_match_mean_on_defined :
    ∀ (cols : List (String × List FVal)) (w : ℚ) (n : ℕ),
      w ≠ 0 →
      (∀ c ∈ cols, ∃ qs : List ℚ, c.2 = qs.map FVal.num ∧ qs.length = n) →
      combine_forecasts cols (some (cols.map (fun c => (c.1, w)))) =
        combine_forecasts cols none := by
  intro cols w n hw hcols
  by_cases hc0 : cols = []
  · subst hc0; rfl
  have hk : 0 < cols.length := List.length_pos.2 hc0
  have hkq : ((cols.length : ℚ)) ≠ 0 := Nat.cast_ne_zero.2 hk.ne'
  have hws : (cols.map
      (fun c => ((List.lookup c.1 (cols.map (fun c => (c.1, w)))).getD 1))) =
      List.replicate cols.length w := by
    rw [show (cols.map
        (fun c => ((List.lookup c.1 (cols.map (fun c => (c.1, w)))).getD 1))) =
        cols.map (fun _ => w) from
      List.map_congr_left (fun c hc => by
        rw [lookup_const_weight w cols c.1 (List.mem_map_of_mem Prod.fst hc)]
        rfl)]
    exact map_const_eq_replicate cols w
  have htot : (List.replicate cols.length w).sum = (cols.length : ℚ) * w := by
    rw [List.sum_replicate, nsmul_eq_mul]
  have hnw : (FVal.num w).div (FVal.num ((cols.length : ℚ) * w)) =
      FVal.num (1 / (cols.length : ℚ)) := by
    simp only [FVal.div]
    rw [if_neg (mul_ne_zero hkq hw)]
    congr 1
    field_simp
    ring
  simp only [combine_forecasts]
  congr 1
  apply List.map_congr_left
  intro r hr
  rw [List.mem_range] at hr
  have hnrows : (cols.map (fun c => c.2.length)).foldr max 0 = n := by
    rw [show cols.map (fun c => c.2.length) = cols.map (fun _ => n) from
        List.map_congr_left (fun c hc => by
          obtain ⟨qs, hq, hlen⟩ := hcols c hc
          simp [hq, hlen]),
      map_const_eq_replicate, foldr_max_replicate _ _ hk]
  rw [hnrows] at hr
  obtain ⟨qsr, hqsr, hqlen⟩ := row_all_num cols n r hr hcols
  rw [hws, htot, List.map_replicate, hnw, hqsr]
  rw [show List.replicate cols.length (FVal.num (1 / (cols.length : ℚ))) =
      List.replicate qsr.length (FVal.num (1 / (cols.length : ℚ))) from by
    rw [hqlen]]
  rw [zipWith_mul_map_num, fsum_map_num, sum_map_mul_const]
  have hqne : qsr ≠ [] := by
    intro hnil
    rw [hnil] at hqlen
    simp at hqlen
    omega
  rw [fmean_map_num qsr hqne, hqlen]
  rw [mul_one_div]

/-- Witness for `equal_weights_match_mean_on_defined` at a concrete
two-column fully defined frame. -/
theorem equal_weights_match_mean_on_defined_witness :
    ((3 : ℚ) ≠ 0) ∧
    combine_forecasts [("A", [FVal.num 4]), ("B", [FVal.num 6])]
        (some [("A", 3), ("B", 3)]) =
      combine_forecasts [("A", [FVal.num 4]), ("B", [FVal.num 6])] none :=
  ⟨by norm_num,
    equal_weights_match_mean_on_defined
      [("A", [FVal.num 4]), ("B", [FVal.num 6])] 3 1 (by norm_num)
      (by
        intro c hc
        simp only [List.mem_cons, List.not_mem_nil, or_false] at hc
        rcases hc with h | h <;> subst h
        · exact ⟨[4], rfl, rfl⟩
        · exact ⟨[6], rfl, rfl⟩)⟩
